import Mathlib

/-!
Verification of the name-resolution reconciliation logic of fusera's `nr`
package (src/nr/nr.go): the `sanitize` fold that merges per-identifier
payload entries into a map of accessions, and the decode-and-reconcile tail
of `ResolveNames`.

Modelling choices:
- Go `map[string]T` is modelled as an insertion-ordered association list with
  unique keys; Go map assignment `m[k] = v` is `updAssoc` (replace in place or
  append), Go map indexing is `lookupA`.
- The Go diagnostic strings `msg` and `errmsg` are built by repeated
  `fmt.Sprintf` appends; they are modelled as the list of appended fragments,
  the Go string being their concatenation (`String.join`).
- `time.Time` fields are carried as opaque rendered strings; the logic under
  verification never inspects them.
- Machine integers (`status`) are modelled as `Int`; no arithmetic is
  performed on them beyond comparison with 200.
-/

namespace Fusera

/-- `File` from src/nr/nr.go (lines 163-171): one wire/output file record. -/
structure File where
  Name : String
  Size : String
  ModifiedDate : String
  Md5Hash : String
  Link : String
  ExpirationDate : String
  Service : String
deriving DecidableEq

/-- `Payload` from src/nr/nr.go (lines 154-159): one per-identifier entry of
the API response. -/
structure Payload where
  ID : String
  Status : Int
  Message : String
  Files : List File
deriving DecidableEq

/-- `Accession` from src/nr/nr.go (lines 160-163); the Go `map[string]File`
is an association list keyed by file name. -/
structure Accession where
  ID : String
  Files : List (String × File)
deriving DecidableEq

/-- Go map assignment `m[k] = v`: replace the binding in place when the key
exists, otherwise append a new binding. -/
def updAssoc {α : Type} (m : List (String × α)) (k : String) (v : α) :
    List (String × α) :=
  match m with
  | [] => [(k, v)]
  | (j, w) :: rest => if j = k then (k, v) :: rest else (j, w) :: updAssoc rest k v

/-- Go map indexing `m[k]` (the `v, ok := m[k]` form). -/
def lookupA {α : Type} (m : List (String × α)) (k : String) : Option α :=
  match m with
  | [] => none
  | (j, w) :: rest => if j = k then some w else lookupA rest k

/-- Go `fmt.Sprintf` rendering of a `File` struct under the `%s` verb, as used
by the "no name" diagnostic (src/nr/nr.go line 140); the rendering is never
inspected by the logic. -/
def fileFmt (f : File) : String :=
  "\x7b" ++ f.Name ++ " " ++ f.Size ++ " " ++ f.ModifiedDate ++ " " ++ f.Md5Hash
    ++ " " ++ f.Link ++ " " ++ f.ExpirationDate ++ " " ++ f.Service ++ "\x7d"

/-- The `msg` fragment appended for a payload with non-200 status
(src/nr/nr.go line 124). -/
def msgNon200 (p : Payload) : String :=
  "issue with accession " ++ p.ID ++ ": " ++ p.Message ++ "\n"

/-- The `errmsg` fragment appended for a payload with non-200 status
(src/nr/nr.go line 125). -/
def errNon200 (p : Payload) : String :=
  p.ID ++ ": " ++ toString p.Status ++ "\t" ++ p.Message

/-- The `msg` fragment appended for a file with an empty link
(src/nr/nr.go line 136). -/
def msgNoLink (id : String) (f : File) : String :=
  "issue with accession " ++ id ++ ": API returned no link for " ++ f.Name ++ "\n"

/-- The `msg` fragment appended for a file with an empty name
(src/nr/nr.go line 140). -/
def msgNoName (id : String) (f : File) : String :=
  "issue with accession " ++ id ++ ": API returned no name for " ++ fileFmt f ++ "\n"

/-- The inner file loop of `sanitize` (src/nr/nr.go lines 134-144): fold the
payload's files into the accession's file map, appending diagnostic fragments
for files with an empty link or an empty name. -/
def sanFiles (id : String) (msg : List String) (files : List (String × File)) :
    List File → List String × List (String × File)
  | [] => (msg, files)
  | f :: fs =>
    if f.Link = "" then sanFiles id (msg ++ [msgNoLink id f]) files fs
    else if f.Name = "" then sanFiles id (msg ++ [msgNoName id f]) files fs
    else sanFiles id msg (updAssoc files f.Name f) fs

/-- The mutable state of `sanitize`'s payload loop: the accession map under
construction and the two diagnostic accumulators. -/
structure SanState where
  accs : List (String × Accession)
  msg : List String
  errmsg : List String
deriving DecidableEq

/-- One iteration of `sanitize`'s payload loop (src/nr/nr.go lines 122-147):
a non-200 entry only appends diagnostics; a 200 entry fetches or creates the
accession for its identifier, folds its files in, and writes the accession
back under `acc.ID`. -/
def sanStep (st : SanState) (p : Payload) : SanState :=
  if p.Status ≠ 200 then
    { st with msg := st.msg ++ [msgNon200 p], errmsg := st.errmsg ++ [errNon200 p] }
  else
    let acc :=
      match lookupA st.accs p.ID with
      | some a => a
      | none => { ID := p.ID, Files := [] }
    let r := sanFiles p.ID st.msg acc.Files p.Files
    { st with accs := updAssoc st.accs acc.ID { acc with Files := r.2 }, msg := r.1 }

/-- The initial state of `sanitize` (src/nr/nr.go lines 120-121): empty map,
empty diagnostics. -/
def initState : SanState := { accs := [], msg := [], errmsg := [] }

/-- The full payload loop of `sanitize` (src/nr/nr.go lines 122-147). -/
def sanLoop (ps : List Payload) : SanState := ps.foldl sanStep initState

/-- The triple `sanitize` returns: the accession map, the user-facing
diagnostic trail, and the fatal error, if any. -/
structure SanResult where
  accs : List (String × Accession)
  msg : List String
  err : Option String
deriving DecidableEq

/-- `sanitize` (src/nr/nr.go lines 119-152): run the payload loop, and fail
with a hard error embedding `errmsg` exactly when the resulting map is empty
(`len(accs) < 1`). -/
def sanitize (ps : List Payload) : SanResult :=
  let st := sanLoop ps
  { accs := st.accs, msg := st.msg,
    err :=
      if st.accs.length < 1 then
        some ("API returned no mountable accessions\n" ++ String.join st.errmsg)
      else none }

/-- The observable outcome of the decode-and-reconcile tail of `ResolveNames`:
the map and error returned to the caller, and what `fmt.Println` wrote to
standard output. -/
structure ResolveOutcome where
  accs : List (String × Accession)
  err : Option String
  printed : List String
deriving DecidableEq

/-- The decode-and-reconcile tail of `ResolveNames` (src/nr/nr.go lines
99-115). `arrDec` is the result of `json.Unmarshal` into `[]Payload` and
`objDec` the result of the fallback `json.Unmarshal` into a single `Payload`
(`none` modelling a decode error); `printed` is what `fmt.Println` writes. -/
def resolveTail (arrDec : Option (List Payload)) (objDec : Option Payload) :
    ResolveOutcome :=
  match arrDec with
  | some payload =>
    let r := sanitize payload
    { accs := r.accs, err := r.err,
      printed :=
        if String.join r.msg ≠ "" ∧ r.err = none then [String.join r.msg] else [] }
  | none =>
    match objDec with
    | some ep =>
      { accs := [],
        err := some ("encountered error from Name Resolver API: "
          ++ toString ep.Status ++ ": " ++ ep.Message),
        printed := [] }
    | none =>
      { accs := [],
        err := some "fatal error when trying to read response from Name Resolver API",
        printed := [] }

/-- What `ResolveNames` hands back to its caller (src/nr/nr.go line 115):
the accession map and the error, nothing else. -/
def resolveReturn (r : ResolveOutcome) : List (String × Accession) × Option String :=
  (r.accs, r.err)

/-- A file the inner loop keeps: non-empty link and non-empty name. -/
def wfFile (f : File) : Prop := f.Link ≠ "" ∧ f.Name ≠ ""

instance (f : File) : Decidable (wfFile f) :=
  inferInstanceAs (Decidable (f.Link ≠ "" ∧ f.Name ≠ ""))

/-- The file-map component of the inner loop in isolation: `sanFiles` with the
diagnostic accumulator projected away (see `sanFiles_snd`). -/
def applyWf : List File → List (String × File) → List (String × File)
  | [], m => m
  | f :: fs, m =>
    if f.Link = "" then applyWf fs m
    else if f.Name = "" then applyWf fs m
    else applyWf fs (updAssoc m f.Name f)

/-- Some file of `fs` is well formed and named `n`. -/
def hasWfName (fs : List File) (n : String) : Prop :=
  ∃ f ∈ fs, wfFile f ∧ f.Name = n

instance (fs : List File) (n : String) : Decidable (hasWfName fs n) :=
  inferInstanceAs (Decidable (∃ f ∈ fs, wfFile f ∧ f.Name = n))

/-- Every file of the map is stored under its own name and has a non-empty
link: the per-accession part of the reconciliation invariant. -/
def filesInv (m : List (String × File)) : Prop :=
  ∀ n f, lookupA m n = some f → f.Name = n ∧ f.Link ≠ ""

/-- Every accession of the map is stored under its own identifier and its
file map satisfies `filesInv`: the reconciliation invariant. -/
def accsInv (accs : List (String × Accession)) : Prop :=
  ∀ k a, lookupA accs k = some a → a.ID = k ∧ filesInv a.Files

/-! ### Concrete inputs used for witnesses and counterexamples -/

/-- A well-formed file: non-empty name and link. -/
def fGood : File := ⟨"a.bam", "", "", "", "http://x/a.bam", "", ""⟩

/-- A second well-formed file with the same name as `fGood` but another link. -/
def fGood2 : File := ⟨"a.bam", "", "", "", "http://y/a.bam", "", ""⟩

/-- A malformed file: its link is empty. -/
def fNoLink : File := ⟨"b.bam", "", "", "", "", "", ""⟩

/-- A status-200 payload carrying one well-formed file. -/
def pOK : Payload := ⟨"SRR000001", 200, "", [fGood]⟩

/-- The same identifier and status as `pOK`, but the file list also carries a
malformed file, so reconciling it produces an extra diagnostic line while
yielding the same accession map. -/
def pOKExtra : Payload := ⟨"SRR000001", 200, "", [fGood, fNoLink]⟩

/-- A second status-200 payload for the identifier of `pOK`, whose file
collides by name with `fGood`. -/
def qOK : Payload := ⟨"SRR000001", 200, "", [fGood2]⟩

/-- A failing payload entry: status 404. -/
def pBad : Payload := ⟨"SRR000002", 404, "no data", []⟩

/-- A status-200 payload with no files at all: it contributes zero well-formed
files, yet `sanitize` materializes an accession for it. -/
def pEmpty200 : Payload := ⟨"SRR000003", 200, "", []⟩

/-! ### Association-list map lemmas -/

theorem lookupA_updAssoc_self {α : Type} (m : List (String × α)) (k : String) (v : α) :
    lookupA (updAssoc m k v) k = some v := by
  induction m with
  | nil => simp [updAssoc, lookupA]
  | cons hd rest ih =>
    obtain ⟨j, w⟩ := hd
    by_cases h : j = k
    · simp [updAssoc, lookupA, h]
    · simp [updAssoc, lookupA, h, ih]

theorem lookupA_updAssoc_ne {α : Type} (m : List (String × α)) (k j : String) (v : α)
    (h : j ≠ k) : lookupA (updAssoc m k v) j = lookupA m j := by
  induction m with
  | nil => simp [updAssoc, lookupA, Ne.symm h]
  | cons hd rest ih =>
    obtain ⟨i, w⟩ := hd
    by_cases hik : i = k
    · subst hik
      simp [updAssoc, lookupA, Ne.symm h]
    · by_cases hij : i = j <;> simp [updAssoc, lookupA, hik, hij, ih, h]

theorem isSome_lookupA_updAssoc {α : Type} (m : List (String × α)) (k j : String) (v : α) :
    (lookupA (updAssoc m k v) j).isSome = true ↔ j = k ∨ (lookupA m j).isSome = true := by
  by_cases h : j = k
  · subst h
    simp [lookupA_updAssoc_self]
  · simp [lookupA_updAssoc_ne m k j v h, h]

theorem updAssoc_ne_nil {α : Type} (m : List (String × α)) (k : String) (v : α) :
    updAssoc m k v ≠ [] := by
  cases m with
  | nil => simp [updAssoc]
  | cons hd rest =>
    obtain ⟨j, w⟩ := hd
    by_cases h : j = k <;> simp [updAssoc, h]

/-! ### Inner file-loop lemmas -/

theorem sanFiles_snd (fs : List File) (id : String) (msg : List String)
    (files : List (String × File)) : (sanFiles id msg files fs).2 = applyWf fs files := by
  induction fs generalizing msg files with
  | nil => rfl
  | cons f rest ih =>
    by_cases hL : f.Link = ""
    · simp [sanFiles, applyWf, hL, ih]
    · by_cases hN : f.Name = "" <;> simp [sanFiles, applyWf, hL, hN, ih]

theorem applyWf_of_all_malformed (fs : List File) (m : List (String × File))
    (h : ∀ f ∈ fs, f.Link = "" ∨ f.Name = "") : applyWf fs m = m := by
  induction fs with
  | nil => rfl
  | cons f rest ih =>
    have hf := h f (List.mem_cons_self f rest)
    have hrest : ∀ g ∈ rest, g.Link = "" ∨ g.Name = "" :=
      fun g hg => h g (List.mem_cons_of_mem f hg)
    rcases hf with hL | hN
    · simp [applyWf, hL, ih hrest]
    · by_cases hL : f.Link = "" <;> simp [applyWf, hL, hN, ih hrest]

theorem hasWfName_cons (f : File) (fs : List File) (n : String) :
    hasWfName (f :: fs) n ↔ (wfFile f ∧ f.Name = n) ∨ hasWfName fs n := by
  simp [hasWfName, List.mem_cons, exists_eq_or_imp]

theorem lookupA_applyWf (fs : List File) (m : List (String × File)) (n : String) :
    lookupA (applyWf fs m) n =
      if hasWfName fs n then lookupA (applyWf fs []) n else lookupA m n := by
  induction fs generalizing m with
  | nil =>
    have : ¬ hasWfName ([] : List File) n := by simp [hasWfName]
    simp [applyWf, this]
  | cons f rest ih =>
    by_cases hL : f.Link = ""
    · have hw : ¬ (wfFile f ∧ f.Name = n) := by simp [wfFile, hL]
      have e1 : applyWf (f :: rest) m = applyWf rest m := by simp [applyWf, hL]
      have e2 : applyWf (f :: rest) [] = applyWf rest [] := by simp [applyWf, hL]
      have hcond : hasWfName (f :: rest) n ↔ hasWfName rest n := by
        rw [hasWfName_cons]; simp [hw]
      rw [e1, e2]
      simp only [hcond]
      exact ih m
    · by_cases hN : f.Name = ""
      · have hw : ¬ (wfFile f ∧ f.Name = n) := by simp [wfFile, hN]
        have e1 : applyWf (f :: rest) m = applyWf rest m := by simp [applyWf, hL, hN]
        have e2 : applyWf (f :: rest) [] = applyWf rest [] := by simp [applyWf, hL, hN]
        have hcond : hasWfName (f :: rest) n ↔ hasWfName rest n := by
          rw [hasWfName_cons]; simp [hw]
        rw [e1, e2]
        simp only [hcond]
        exact ih m
      · have hwf : wfFile f := ⟨hL, hN⟩
        have e1 : applyWf (f :: rest) m = applyWf rest (updAssoc m f.Name f) := by
          simp [applyWf, hL, hN]
        have e2 : applyWf (f :: rest) [] = applyWf rest (updAssoc [] f.Name f) := by
          simp [applyWf, hL, hN]
        by_cases hn : f.Name = n
        · have hcons : hasWfName (f :: rest) n := ⟨f, List.mem_cons_self f rest, hwf, hn⟩
          rw [e1, e2, if_pos hcons, ih (updAssoc m f.Name f), ih (updAssoc [] f.Name f)]
          by_cases hr : hasWfName rest n
          · rw [if_pos hr, if_pos hr]
          · rw [if_neg hr, if_neg hr, hn, lookupA_updAssoc_self, lookupA_updAssoc_self]
        · have hw : ¬ (wfFile f ∧ f.Name = n) := fun hh => hn hh.2
          have hcond : hasWfName (f :: rest) n ↔ hasWfName rest n := by
            rw [hasWfName_cons]; simp [hw]
          rw [e1, e2]
          simp only [hcond]
          rw [ih (updAssoc m f.Name f), ih (updAssoc [] f.Name f)]
          by_cases hr : hasWfName rest n
          · simp [hr]
          · simp [hr, lookupA_updAssoc_ne m f.Name n f (Ne.symm hn),
              lookupA_updAssoc_ne ([] : List (String × File)) f.Name n f (Ne.symm hn),
              lookupA]

/-! ### Invariant preservation -/

theorem filesInv_nil : filesInv [] := by
  intro n f h
  simp [lookupA] at h

theorem filesInv_updAssoc (m : List (String × File)) (g : File) (hm : filesInv m)
    (hL : g.Link ≠ "") : filesInv (updAssoc m g.Name g) := by
  intro n f h
  by_cases hn : n = g.Name
  · subst hn
    rw [lookupA_updAssoc_self] at h
    have hg := Option.some.inj h
    subst hg
    exact ⟨rfl, hL⟩
  · rw [lookupA_updAssoc_ne m g.Name n g hn] at h
    exact hm n f h

theorem filesInv_applyWf (fs : List File) (m : List (String × File)) (hm : filesInv m) :
    filesInv (applyWf fs m) := by
  induction fs generalizing m with
  | nil => exact hm
  | cons f rest ih =>
    by_cases hL : f.Link = ""
    · rw [show applyWf (f :: rest) m = applyWf rest m from by simp [applyWf, hL]]
      exact ih m hm
    · by_cases hN : f.Name = ""
      · rw [show applyWf (f :: rest) m = applyWf rest m from by simp [applyWf, hL, hN]]
        exact ih m hm
      · rw [show applyWf (f :: rest) m = applyWf rest (updAssoc m f.Name f) from by
          simp [applyWf, hL, hN]]
        exact ih _ (filesInv_updAssoc m f hm hL)

theorem accsInv_nil : accsInv [] := by
  intro k a h
  simp [lookupA] at h

theorem accsInv_updAssoc (accs : List (String × Accession)) (k : String) (a : Accession)
    (h : accsInv accs) (ha : a.ID = k) (hf : filesInv a.Files) :
    accsInv (updAssoc accs k a) := by
  intro j b hb
  by_cases hj : j = k
  · subst hj
    rw [lookupA_updAssoc_self] at hb
    have hab := Option.some.inj hb
    subst hab
    exact ⟨ha, hf⟩
  · rw [lookupA_updAssoc_ne accs k j a hj] at hb
    exact h j b hb

/-! ### Step-shape lemmas for `sanStep` -/

theorem sanStep_non200 (st : SanState) (p : Payload) (hp : p.Status ≠ 200) :
    sanStep st p =
      { st with msg := st.msg ++ [msgNon200 p], errmsg := st.errmsg ++ [errNon200 p] } := by
  simp [sanStep, hp]

theorem sanStep_200_new (st : SanState) (p : Payload) (hp : p.Status = 200)
    (h : lookupA st.accs p.ID = none) :
    sanStep st p =
      { st with
        accs := updAssoc st.accs p.ID ⟨p.ID, applyWf p.Files []⟩
        msg := (sanFiles p.ID st.msg [] p.Files).1 } := by
  simp [sanStep, hp, h, sanFiles_snd]

theorem sanStep_200_dup (st : SanState) (p : Payload) (a : Accession) (hp : p.Status = 200)
    (h : lookupA st.accs p.ID = some a) :
    sanStep st p =
      { st with
        accs := updAssoc st.accs a.ID ⟨a.ID, applyWf p.Files a.Files⟩
        msg := (sanFiles p.ID st.msg a.Files p.Files).1 } := by
  simp [sanStep, hp, h, sanFiles_snd]

theorem accsInv_sanStep (st : SanState) (p : Payload) (h : accsInv st.accs) :
    accsInv (sanStep st p).accs := by
  by_cases hp : p.Status = 200
  · cases hacc : lookupA st.accs p.ID with
    | none =>
      rw [sanStep_200_new st p hp hacc]
      exact accsInv_updAssoc _ _ _ h rfl (filesInv_applyWf _ _ filesInv_nil)
    | some a =>
      rw [sanStep_200_dup st p a hp hacc]
      exact accsInv_updAssoc _ _ _ h rfl (filesInv_applyWf _ _ (h p.ID a hacc).2)
  · rw [sanStep_non200 st p hp]
    exact h

theorem accsInv_foldl (ps : List Payload) (st : SanState) (h : accsInv st.accs) :
    accsInv ((ps.foldl sanStep st).accs) := by
  induction ps generalizing st with
  | nil => exact h
  | cons p rest ih => exact ih (sanStep st p) (accsInv_sanStep st p h)

/-! ### Key membership -/

theorem isSome_sanStep_accs (st : SanState) (p : Payload) (k : String) (h : accsInv st.accs) :
    (lookupA (sanStep st p).accs k).isSome = true ↔
      (p.Status = 200 ∧ p.ID = k) ∨ (lookupA st.accs k).isSome = true := by
  by_cases hp : p.Status = 200
  · have key : ∀ m, (lookupA (updAssoc st.accs p.ID m) k).isSome = true ↔
        (p.Status = 200 ∧ p.ID = k) ∨ (lookupA st.accs k).isSome = true := by
      intro m
      rw [isSome_lookupA_updAssoc]
      constructor
      · rintro (e | hs)
        · exact Or.inl ⟨hp, e.symm⟩
        · exact Or.inr hs
      · rintro (⟨-, e⟩ | hs)
        · exact Or.inl e.symm
        · exact Or.inr hs
    cases hacc : lookupA st.accs p.ID with
    | none =>
      rw [sanStep_200_new st p hp hacc]
      exact key _
    | some a =>
      rw [sanStep_200_dup st p a hp hacc]
      rw [show a.ID = p.ID from (h p.ID a hacc).1]
      exact key _
  · rw [sanStep_non200 st p hp]
    simp [hp]

theorem isSome_foldl_accs (ps : List Payload) (st : SanState) (k : String)
    (h : accsInv st.accs) :
    (lookupA ((ps.foldl sanStep st).accs) k).isSome = true ↔
      (∃ p ∈ ps, p.ID = k ∧ p.Status = 200) ∨ (lookupA st.accs k).isSome = true := by
  induction ps generalizing st with
  | nil => simp
  | cons p rest ih =>
    rw [List.foldl_cons, ih (sanStep st p) (accsInv_sanStep st p h),
      isSome_sanStep_accs st p k h]
    constructor
    · rintro (hex | (⟨h200, hid⟩ | hs))
      · obtain ⟨q, hq, hqk, hq2⟩ := hex
        exact Or.inl ⟨q, List.mem_cons_of_mem p hq, hqk, hq2⟩
      · exact Or.inl ⟨p, List.mem_cons_self p rest, hid, h200⟩
      · exact Or.inr hs
    · rintro (hex | hs)
      · obtain ⟨q, hq, hqk, hq2⟩ := hex
        rcases List.mem_cons.1 hq with hqp | hqr
        · subst hqp
          exact Or.inr (Or.inl ⟨hq2, hqk⟩)
        · exact Or.inl ⟨q, hqr, hqk, hq2⟩
      · exact Or.inr (Or.inr hs)

/-! ### Pointwise lookup after a step, and frame lemmas -/

theorem lookupA_sanStep_other (st : SanState) (p : Payload) (k : String)
    (h : accsInv st.accs) (hne : p.ID ≠ k) :
    lookupA (sanStep st p).accs k = lookupA st.accs k := by
  by_cases hp : p.Status = 200
  · cases hacc : lookupA st.accs p.ID with
    | none =>
      rw [sanStep_200_new st p hp hacc]
      exact lookupA_updAssoc_ne _ _ _ _ (Ne.symm hne)
    | some a =>
      rw [sanStep_200_dup st p a hp hacc, (h p.ID a hacc).1]
      exact lookupA_updAssoc_ne _ _ _ _ (Ne.symm hne)
  · rw [sanStep_non200 st p hp]

theorem lookupA_foldl_other (ps : List Payload) (st : SanState) (k : String)
    (h : accsInv st.accs) (hids : ∀ r ∈ ps, r.ID ≠ k) :
    lookupA ((ps.foldl sanStep st).accs) k = lookupA st.accs k := by
  induction ps generalizing st with
  | nil => rfl
  | cons r rest ih =>
    rw [List.foldl_cons,
      ih (sanStep st r) (accsInv_sanStep st r h)
        (fun x hx => hids x (List.mem_cons_of_mem r hx)),
      lookupA_sanStep_other st r k h (hids r (List.mem_cons_self r rest))]

theorem lookupA_sanStep_own_new (st : SanState) (p : Payload) (hp : p.Status = 200)
    (hacc : lookupA st.accs p.ID = none) :
    lookupA (sanStep st p).accs p.ID = some ⟨p.ID, applyWf p.Files []⟩ := by
  rw [sanStep_200_new st p hp hacc]
  exact lookupA_updAssoc_self _ _ _

theorem lookupA_sanStep_own_dup (st : SanState) (p : Payload) (a : Accession)
    (h : accsInv st.accs) (hp : p.Status = 200)
    (hacc : lookupA st.accs p.ID = some a) :
    lookupA (sanStep st p).accs p.ID = some ⟨p.ID, applyWf p.Files a.Files⟩ := by
  rw [sanStep_200_dup st p a hp hacc, (h p.ID a hacc).1]
  exact lookupA_updAssoc_self _ _ _

/-! ### Diagnostic accumulators along the loop -/

theorem errmsg_foldl (ps : List Payload) (st : SanState) :
    (ps.foldl sanStep st).errmsg =
      st.errmsg ++ (ps.filter fun p => decide (p.Status ≠ 200)).map errNon200 := by
  induction ps generalizing st with
  | nil => simp
  | cons p rest ih =>
    by_cases hp : p.Status = 200
    · have hst : (sanStep st p).errmsg = st.errmsg := by
        cases hacc : lookupA st.accs p.ID with
        | none => rw [sanStep_200_new st p hp hacc]
        | some a => rw [sanStep_200_dup st p a hp hacc]
      rw [List.foldl_cons, ih (sanStep st p), hst]
      simp [hp]
    · rw [List.foldl_cons, ih (sanStep st p), sanStep_non200 st p hp]
      simp [hp, List.append_assoc]

theorem foldl_all_non200 (ps : List Payload) (st : SanState)
    (h : ∀ p ∈ ps, p.Status ≠ 200) :
    ps.foldl sanStep st =
      { st with msg := st.msg ++ ps.map msgNon200, errmsg := st.errmsg ++ ps.map errNon200 } := by
  induction ps generalizing st with
  | nil => simp
  | cons p rest ih =>
    rw [List.foldl_cons, sanStep_non200 st p (h p (List.mem_cons_self p rest)),
      ih _ (fun q hq => h q (List.mem_cons_of_mem p hq))]
    simp [List.append_assoc]

/-! ### String facts for the two fatal decode errors -/

theorem string_data_append (s t : String) : (s ++ t).data = s.data ++ t.data := rfl

theorem objErr_ne_fatal (x y : String) :
    ("encountered error from Name Resolver API: " ++ x ++ ": " ++ y) ≠
      "fatal error when trying to read response from Name Resolver API" := by
  have e0 : ("encountered error from Name Resolver API: ").data =
      'e' :: ("ncountered error from Name Resolver API: ").data := by decide
  have e2 : ("fatal error when trying to read response from Name Resolver API").data.head? =
      some 'f' := by decide
  intro h
  have h2 := congrArg (fun s => s.data.head?) h
  simp only [string_data_append, List.append_assoc] at h2
  simp only [List.cons_append, List.head?_cons] at h2
  exact absurd (Option.some.inj h2) (by decide)

/-! ### Claim theorems -/

/-- Claim C1: `sanitize` returns a non-nil error exactly when the accession map
it built is empty; that error embeds the accumulated `errmsg` trail, one
fragment per entry with status ≠ 200 carrying the identifier, status and
message; and when the map is non-empty no error is returned, however many
diagnostics accumulated. -/
theorem sanitize_err_iff_empty (ps : List Payload) :
    ((sanitize ps).err ≠ none ↔ (sanitize ps).accs = []) ∧
    ((sanitize ps).accs = [] →
      (sanitize ps).err = some ("API returned no mountable accessions\n"
        ++ String.join ((ps.filter fun p => decide (p.Status ≠ 200)).map errNon200))) ∧
    ((sanitize ps).accs ≠ [] → (sanitize ps).err = none) := by
  have herr : (sanLoop ps).errmsg =
      (ps.filter fun p => decide (p.Status ≠ 200)).map errNon200 := by
    simpa [sanLoop, initState] using errmsg_foldl ps initState
  by_cases he : (sanLoop ps).accs = []
  · have hlen : (sanLoop ps).accs.length < 1 := by simp [he]
    refine ⟨?_, fun _ => ?_, fun hne => absurd he hne⟩
    · simp [sanitize, he, hlen]
    · simp [sanitize, hlen, herr]
  · have hlen : ¬ (sanLoop ps).accs.length < 1 := by
      cases h : (sanLoop ps).accs with
      | nil => exact absurd h he
      | cons a l => simp [h]
    refine ⟨?_, fun h0 => absurd h0 he, fun _ => ?_⟩
    · simp [sanitize, he, hlen]
    · simp [sanitize, hlen]

/-- Claim C2 counterexample: a payload list whose only entry has status 200 and
contributes zero well-formed files (it has no files at all), for which the
claim predicts a hard error with a non-empty trail; `sanitize` instead
succeeds — it materializes an accession with an empty file set and returns no
error and an empty diagnostic trail. -/
theorem sanitize_zero_wf_files_no_err :
    pEmpty200.Status = 200 ∧ pEmpty200.Files = [] ∧
    (sanitize [pEmpty200]).err = none ∧ (sanitize [pEmpty200]).msg = [] ∧
    (sanitize [pEmpty200]).accs = [("SRR000003", ⟨"SRR000003", []⟩)] := by
  decide

/-- Claim C2 (amended): for every non-empty list of payload entries in which
every entry has non-200 status, the call fails with an error and the
diagnostic trail is non-empty. (The original second disjunct — status-200
entries contributing zero well-formed files — does not force a failure:
such an entry still materializes an accession, making the map non-empty.) -/
theorem sanitize_all_non200_fails (ps : List Payload) (hne : ps ≠ [])
    (h : ∀ p ∈ ps, p.Status ≠ 200) :
    (sanitize ps).accs = [] ∧ (sanitize ps).err ≠ none ∧
    (sanitize ps).msg = ps.map msgNon200 ∧ (sanitize ps).msg ≠ [] := by
  have hloop := foldl_all_non200 ps initState h
  have haccs : (sanitize ps).accs = [] := by
    show (sanLoop ps).accs = []
    rw [sanLoop, hloop]
    simp [initState]
  have hmsg : (sanitize ps).msg = ps.map msgNon200 := by
    show (sanLoop ps).msg = ps.map msgNon200
    rw [sanLoop, hloop]
    simp [initState]
  refine ⟨haccs, ?_, hmsg, ?_⟩
  · have hlen : (sanLoop ps).accs.length < 1 := by
      have : (sanLoop ps).accs = [] := haccs
      simp [this]
    simp [sanitize, hlen]
  · rw [hmsg]
    simp [hne]

/-- Witness for C2 (amended) at the concrete failing payload `pBad`. -/
theorem sanitize_all_non200_fails_at_pBad :
    (sanitize [pBad]).accs = [] ∧ (sanitize [pBad]).err ≠ none ∧
    (sanitize [pBad]).msg = [pBad].map msgNon200 ∧ (sanitize [pBad]).msg ≠ [] :=
  sanitize_all_non200_fails [pBad] (by decide) (by decide)

/-- Claim C3: an identifier is a key of the result map exactly when some
payload entry for it has status 200; and a status-200 entry all of whose
files are malformed still creates an accession with an empty file set. -/
theorem sanitize_key_iff (ps : List Payload) (k : String) :
    ((lookupA (sanitize ps).accs k).isSome = true ↔
      ∃ p ∈ ps, p.ID = k ∧ p.Status = 200) ∧
    (∀ p : Payload, p.ID = k → p.Status = 200 →
      (∀ f ∈ p.Files, f.Link = "" ∨ f.Name = "") →
      lookupA (sanitize [p]).accs k = some ⟨k, []⟩) := by
  constructor
  · have := isSome_foldl_accs ps initState k accsInv_nil
    simpa [sanitize, sanLoop, initState, lookupA] using this
  · intro p hid h200 hmal
    subst hid
    have hstep := sanStep_200_new initState p h200 (by simp [initState, lookupA])
    have hfiles : applyWf p.Files [] = [] := applyWf_of_all_malformed p.Files [] hmal
    show lookupA (sanLoop [p]).accs p.ID = some ⟨p.ID, []⟩
    rw [sanLoop, List.foldl_cons, List.foldl_nil, hstep]
    simp [hfiles, initState, updAssoc, lookupA]

/-- Claim C4: in any payload list containing two status-200 entries `p` and
`q` for the same identifier (and no other entry for that identifier), the
result maps that identifier to the single accession whose file map folds in
the earlier entry's well-formed files and then the later entry's (their
union, the later insertion overwriting); and on any name carried by a
well-formed file of the later entry, the merged map agrees with the later
entry's files alone — the later entry wins every name collision. -/
theorem sanitize_merge_dup (pre mid post : List Payload) (p q : Payload)
    (hp : p.Status = 200) (hq : q.Status = 200) (hid : q.ID = p.ID)
    (hpre : ∀ r ∈ pre, r.ID ≠ p.ID) (hmid : ∀ r ∈ mid, r.ID ≠ p.ID)
    (hpost : ∀ r ∈ post, r.ID ≠ p.ID) :
    lookupA (sanitize (pre ++ p :: (mid ++ q :: post))).accs p.ID =
      some ⟨p.ID, applyWf q.Files (applyWf p.Files [])⟩ ∧
    (∀ n, hasWfName q.Files n →
      lookupA (applyWf q.Files (applyWf p.Files [])) n =
        lookupA (applyWf q.Files []) n) := by
  constructor
  · show lookupA (((pre ++ p :: (mid ++ q :: post)).foldl sanStep initState).accs) p.ID = _
    rw [List.foldl_append, List.foldl_cons, List.foldl_append, List.foldl_cons]
    have h0 : accsInv (pre.foldl sanStep initState).accs :=
      accsInv_foldl pre initState accsInv_nil
    have hl0 : lookupA (pre.foldl sanStep initState).accs p.ID = none := by
      rw [lookupA_foldl_other pre initState p.ID accsInv_nil hpre]
      rfl
    have h1 : accsInv (sanStep (pre.foldl sanStep initState) p).accs :=
      accsInv_sanStep _ p h0
    have hl1 : lookupA (sanStep (pre.foldl sanStep initState) p).accs p.ID =
        some ⟨p.ID, applyWf p.Files []⟩ :=
      lookupA_sanStep_own_new _ p hp hl0
    have h2 : accsInv ((mid.foldl sanStep (sanStep (pre.foldl sanStep initState) p)).accs) :=
      accsInv_foldl mid _ h1
    have hl2 : lookupA ((mid.foldl sanStep (sanStep (pre.foldl sanStep initState) p)).accs)
        p.ID = some ⟨p.ID, applyWf p.Files []⟩ := by
      rw [lookupA_foldl_other mid _ p.ID h1 hmid, hl1]
    have hl3 : lookupA ((sanStep (mid.foldl sanStep (sanStep (pre.foldl sanStep initState) p))
        q).accs) p.ID = some ⟨p.ID, applyWf q.Files (applyWf p.Files [])⟩ := by
      have hd := lookupA_sanStep_own_dup _ q ⟨p.ID, applyWf p.Files []⟩ h2 hq
        (by rw [hid]; exact hl2)
      rw [hid] at hd
      exact hd
    have h3 : accsInv ((sanStep (mid.foldl sanStep (sanStep (pre.foldl sanStep initState) p))
        q).accs) := accsInv_sanStep _ q h2
    rw [lookupA_foldl_other post _ p.ID h3 hpost, hl3]
  · intro n hwn
    rw [lookupA_applyWf q.Files (applyWf p.Files []) n, if_pos hwn]

/-- Witness for C4 at two concrete entries for the same identifier whose files
collide on the name "a.bam", with no surrounding entries. -/
theorem sanitize_merge_dup_at_pOK_qOK :
    lookupA (sanitize ([] ++ pOK :: ([] ++ qOK :: []))).accs pOK.ID =
      some ⟨pOK.ID, applyWf qOK.Files (applyWf pOK.Files [])⟩ ∧
    (∀ n, hasWfName qOK.Files n →
      lookupA (applyWf qOK.Files (applyWf pOK.Files [])) n =
        lookupA (applyWf qOK.Files []) n) :=
  sanitize_merge_dup [] [] [] pOK qOK rfl rfl rfl
    (by simp) (by simp) (by simp)

/-- Claim C5: processing an entry with status ≠ 200 only appends one `msg`
line (naming the identifier and the message) and one `errmsg` fragment,
touching no accession; and an identifier none of whose entries has status 200
is never a key of the result map. -/
theorem sanitize_non200_entry (st : SanState) (p : Payload) (ps : List Payload)
    (k : String) :
    (p.Status ≠ 200 →
      sanStep st p = { st with
        msg := st.msg ++ [msgNon200 p]
        errmsg := st.errmsg ++ [errNon200 p] }) ∧
    ((∀ q ∈ ps, q.ID = k → q.Status ≠ 200) →
      lookupA (sanitize ps).accs k = none) := by
  constructor
  · exact fun hp => sanStep_non200 st p hp
  · intro hall
    cases hl : lookupA (sanitize ps).accs k with
    | none => rfl
    | some a =>
      have hs : (lookupA (sanitize ps).accs k).isSome = true := by simp [hl]
      rw [show (sanitize ps).accs = (ps.foldl sanStep initState).accs from rfl,
        isSome_foldl_accs ps initState k accsInv_nil] at hs
      rcases hs with ⟨q, hq, hqk, hq2⟩ | hfalse
      · exact absurd hq2 (hall q hq hqk)
      · simp [initState, lookupA] at hfalse

/-- Claim C6: within a status-200 entry's file loop, a file with an empty link
contributes one diagnostic line and is skipped; otherwise a file with an empty
name contributes one diagnostic line and is skipped; otherwise the file is
upserted under its name, overwriting any previous file of that name; and a
skipped file leaves the file map untouched for its siblings. -/
theorem sanFiles_malformed_cases (id : String) (msg : List String)
    (files : List (String × File)) (f : File) (fs : List File) :
    (f.Link = "" →
      sanFiles id msg files (f :: fs) = sanFiles id (msg ++ [msgNoLink id f]) files fs) ∧
    (f.Link ≠ "" → f.Name = "" →
      sanFiles id msg files (f :: fs) = sanFiles id (msg ++ [msgNoName id f]) files fs) ∧
    (f.Link ≠ "" → f.Name ≠ "" →
      sanFiles id msg files (f :: fs) = sanFiles id msg (updAssoc files f.Name f) fs ∧
      lookupA (updAssoc files f.Name f) f.Name = some f) := by
  refine ⟨fun hL => ?_, fun hL hN => ?_,
    fun hL hN => ⟨?_, lookupA_updAssoc_self files f.Name f⟩⟩
  · simp [sanFiles, hL]
  · simp [sanFiles, hL, hN]
  · simp [sanFiles, hL, hN]

/-- Claim C7: when the body decodes as an array, reconciliation proceeds (the
outcome is `sanitize`'s); when only the single-object decode succeeds, the
call fails with a hard error carrying that object's status and message; when
both decodes fail, the call fails with the distinct could-not-read-response
error — never equal to any single-object error. -/
theorem resolveTail_decode_shapes (ps : List Payload) (p : Payload) (o : Option Payload) :
    ((resolveTail (some ps) o).accs = (sanitize ps).accs ∧
      (resolveTail (some ps) o).err = (sanitize ps).err) ∧
    ((resolveTail none (some p)).err =
      some ("encountered error from Name Resolver API: "
        ++ toString p.Status ++ ": " ++ p.Message)) ∧
    ((resolveTail none none).err =
      some "fatal error when trying to read response from Name Resolver API") ∧
    (resolveTail none (some p)).err ≠ (resolveTail none none).err := by
  refine ⟨⟨rfl, rfl⟩, rfl, rfl, fun h => ?_⟩
  exact objErr_ne_fatal (toString p.Status) p.Message (Option.some.inj h)

/-- Claim C8 counterexample: two array bodies whose reconciliations return the
identical value to the caller — `resolveReturn` yields the map and error only
— while their diagnostic messages differ and the second is non-empty. The
message is therefore not recoverable from the produced interface: the code
prints it (`printed`) instead of returning it. -/
theorem resolveTail_msg_not_in_interface :
    resolveReturn (resolveTail (some [pOK]) none) =
      resolveReturn (resolveTail (some [pOKExtra]) none) ∧
    (sanitize [pOK]).msg = [] ∧ (sanitize [pOKExtra]).msg ≠ [] ∧
    (resolveTail (some [pOK]) none).printed = [] ∧
    (resolveTail (some [pOKExtra]) none).printed =
      [String.join (sanitize [pOKExtra]).msg] := by
  decide

/-- Claim C8 (amended): on a successful resolution, `sanitize` hands the
accumulated diagnostic message to `ResolveNames` alongside the mapping, and
`ResolveNames` itself prints it to standard output when non-empty; its return
value to the caller carries only the mapping and the nil error, not the
message. -/
theorem resolveTail_success_prints (ps : List Payload) (o : Option Payload)
    (h : (sanitize ps).err = none) :
    resolveReturn (resolveTail (some ps) o) = ((sanitize ps).accs, none) ∧
    (resolveTail (some ps) o).printed =
      (if String.join (sanitize ps).msg = "" then []
        else [String.join (sanitize ps).msg]) := by
  constructor
  · simp [resolveReturn, resolveTail, h]
  · by_cases hm : String.join (sanitize ps).msg = "" <;> simp [resolveTail, h, hm]

/-- Witness for C8 (amended) at the concrete successful payload list `[pOK]`. -/
theorem resolveTail_success_prints_at_pOK :
    resolveReturn (resolveTail (some [pOK]) none) = ((sanitize [pOK]).accs, none) ∧
    (resolveTail (some [pOK]) none).printed =
      (if String.join (sanitize [pOK]).msg = "" then []
        else [String.join (sanitize [pOK]).msg]) :=
  resolveTail_success_prints [pOK] none (by decide)

/-- Claim C9: after processing any prefix of the payload list, every accession
of the result map is stored under its own identifier, and every file of its
file map is stored under its own name and has a non-empty link. -/
theorem sanitize_result_invariant (ps : List Payload) (n : Nat) :
    accsInv ((sanitize (ps.take n)).accs) :=
  accsInv_foldl (ps.take n) initState accsInv_nil

/-- Claim C10: when only the single-object decode succeeds, the call fails
with a hard error carrying the object's status and message — for every
payload object, including one with status 200 and well-formed files; the
fallback decode never produces a successful result. -/
theorem resolveTail_single_object_always_fails (p : Payload) :
    (resolveTail none (some p)).err =
      some ("encountered error from Name Resolver API: "
        ++ toString p.Status ++ ": " ++ p.Message) ∧
    (resolveTail none (some p)).err ≠ none ∧
    (resolveTail none (some p)).accs = [] ∧
    (resolveTail none (some p)).printed = [] := by
  refine ⟨rfl, ?_, rfl, rfl⟩
  simp [resolveTail]

end Fusera
